import Mathlib

/-!
Shallow embedding of the static-analysis engine's core: the data model
(SourceText, Violation, Edit, Report), the Fix Resolver, the Pass
Controller, the Traversal Engine, the suppression reconciliation layer,
and the `multiline-ternary` rule's ConditionalExpression handler.
Machine text is `List Char`; byte offsets are `Nat`; ranges are
half-open `[start, stop)`.
-/

/-- Modelled from the spec: an Edit is `{ range: [start, end), replacementText }`
(§3); the Fix Resolver's source is not in the repository snapshot, only its
design document. `stop` stands for the exclusive range end. -/
structure Edit where
  start : Nat
  stop : Nat
  replacement : List Char
deriving DecidableEq, Repr

/-- Severity of a diagnostic: warning, error, or fatal (parse failure). -/
inductive Severity
  | warning
  | error
  | fatal
deriving DecidableEq, Repr

/-- Modelled from the spec: a Violation is
`{ ruleId, severity, message, range, suggestedFix?: Edit }` (§3). -/
structure Violation where
  ruleId : String
  severity : Severity
  message : String
  rstart : Nat
  rstop : Nat
  fix : Option Edit
deriving DecidableEq, Repr

/-- Two half-open ranges `[start, stop)` intersect when each one starts
before the other one ends. -/
def rangesOverlap (a b : Edit) : Prop :=
  a.start < b.stop ∧ b.start < a.stop

instance (a b : Edit) : Decidable (rangesOverlap a b) :=
  inferInstanceAs (Decidable (_ ∧ _))

/-- A violation's suggested fix, when present, has a well-formed range. -/
def wfFix (v : Violation) : Bool :=
  match v.fix with
  | none => true
  | some e => decide (e.start ≤ e.stop)

/-- Modelled from the spec: step 1 of the Fix Resolver (§4.4) filters the
pass's Violations to those carrying a non-null Edit, keeping the original
report order as an index for tie-breaking. -/
def candidatesFrom : Nat → List Violation → List (Nat × Edit)
  | _, [] => []
  | i, v :: rest =>
    match v.fix with
    | some e => (i, e) :: candidatesFrom (i + 1) rest
    | none => candidatesFrom (i + 1) rest

/-- The indexed fix candidates of one pass, in report order. -/
def candidates (vs : List Violation) : List (Nat × Edit) :=
  candidatesFrom 0 vs

/-- Modelled from the spec: the Fix Resolver's sort order (§4.4, step 2):
`range.start` ascending, ties by `range.end` ascending, remaining ties by
original report order. -/
def editLe (a b : Nat × Edit) : Prop :=
  a.2.start < b.2.start ∨
    (a.2.start = b.2.start ∧
      (a.2.stop < b.2.stop ∨ (a.2.stop = b.2.stop ∧ a.1 ≤ b.1)))

instance : DecidableRel editLe := fun a b => by
  unfold editLe; infer_instance

instance : IsTotal (Nat × Edit) editLe :=
  ⟨by intro a b; unfold editLe; omega⟩

instance : IsTrans (Nat × Edit) editLe :=
  ⟨by intro a b c; unfold editLe; omega⟩

/-- Sorting the candidates (§4.4, step 2); insertion sort is stable and the
index component makes the order total. -/
def sortCandidates (cs : List (Nat × Edit)) : List (Nat × Edit) :=
  cs.insertionSort editLe

/-- Modelled from the spec: the greedy scan of the Fix Resolver (§4.4,
step 3) with a "last accepted end offset" cursor: a candidate whose start
is at or past the cursor is accepted and the cursor moves to its end;
otherwise it is rejected. Returns (accepted, rejected). -/
def scanEdits : List (Nat × Edit) → Nat → List (Nat × Edit) × List (Nat × Edit)
  | [], _ => ([], [])
  | c :: rest, cursor =>
    if cursor ≤ c.2.start then
      let p := scanEdits rest c.2.stop
      (c :: p.1, p.2)
    else
      let p := scanEdits rest cursor
      (p.1, c :: p.2)

/-- Modelled from the spec: applying accepted, mutually disjoint edits in a
single left-to-right splice (§4.4, step 4). -/
def spliceFrom (text : List Char) : Nat → List Edit → List Char
  | pos, [] => text.drop pos
  | pos, e :: rest =>
    (text.drop pos).take (e.start - pos) ++ e.replacement ++ spliceFrom text e.stop rest

/-- Result of one Fix Resolver pass. -/
structure FixResult where
  accepted : List (Nat × Edit)
  rejected : List (Nat × Edit)
  output : List Char
deriving DecidableEq, Repr

/-- Modelled from the spec: the whole Fix Resolver pass (§4.4): filter to
candidates, sort, greedily scan from cursor 0, splice the accepted edits. -/
def resolveFixes (text : List Char) (vs : List Violation) : FixResult :=
  let sorted := sortCandidates (candidates vs)
  let p := scanEdits sorted 0
  ⟨p.1, p.2, spliceFrom text 0 (p.1.map Prod.snd)⟩

/-- Modelled from the spec: `lint` options `{fix, maxPasses}` (§6); an
unspecified `maxPasses` means the default ceiling. -/
structure LintOptions where
  fix : Bool
  maxPasses : Option Nat
deriving DecidableEq, Repr

/-- The pass ceiling: `maxPasses` when given, else the default of 10. -/
def ceilingOf (o : LintOptions) : Nat :=
  o.maxPasses.getD 10

/-- The single fatal Violation emitted on parse failure (§4.5, §7). -/
def parseErrorViolation (msg : String) : Violation :=
  ⟨"", Severity.fatal, msg, 0, 0, none⟩

/-- Modelled from the spec: the final artifact of a Pass Controller run
(§3): final SourceText, final Violations, cumulative applied-fix count,
the number of completed parse/traversal cycles, and whether the run
stopped at the ceiling while edits were still being accepted. -/
structure Report where
  finalText : List Char
  violations : List Violation
  fixesApplied : Nat
  passCount : Nat
  nonConvergent : Bool
  fatalParse : Bool
deriving DecidableEq, Repr

/-- Modelled from the spec: the Pass Controller loop (§4.5). One iteration:
parse + traverse (`analyze`); on parse failure emit a single fatal
Violation and stop with no fixing. With fixing off, stop after the first
analysis. Otherwise resolve fixes: zero accepted edits is clean
convergence; with accepted edits the loop re-parses the new text while
`fuel` passes remain below the ceiling, else it stops non-convergent. -/
def lintLoop (analyze : List Char → Except String (List Violation)) (fixOn : Bool)
    (fuel : Nat) (text : List Char) (passes edits : Nat) : Report :=
  match analyze text with
  | Except.error msg => ⟨text, [parseErrorViolation msg], edits, passes, false, true⟩
  | Except.ok vs =>
    if fixOn then
      let res := resolveFixes text vs
      if res.accepted.length = 0 then
        ⟨text, vs, edits, passes + 1, false, false⟩
      else
        match fuel with
        | 0 => ⟨res.output, vs, edits + res.accepted.length, passes + 1, true, false⟩
        | fuel' + 1 =>
          lintLoop analyze fixOn fuel' res.output (passes + 1) (edits + res.accepted.length)
    else ⟨text, vs, edits, passes + 1, false, false⟩

/-- Modelled from the spec: `lint(sourceText, activeRules, options) → Report`
(§6, §4.5). The first parse/traversal cycle is unconditional
(`Idle → Analyzing`); further cycles run while the pass counter stays
below the ceiling. -/
def lint (analyze : List Char → Except String (List Violation))
    (text : List Char) (o : LintOptions) : Report :=
  lintLoop analyze o.fix (ceilingOf o - 1) text 0 0

/-- Modelled from the spec: analysis of independent files in a batch is
per-file with no shared mutable state (§5, §7). -/
def lintBatch (analyze : List Char → Except String (List Violation))
    (o : LintOptions) (files : List (List Char)) : List Report :=
  files.map fun f => lint analyze f o

/-- A node of the parsed tree: kind tag, byte range, children (§3). -/
structure NodeV where
  kind : String
  nstart : Nat
  nstop : Nat
  children : List NodeV

/-- Modelled from the spec: a registered listener of the per-kind index
(§4.1/§4.2): a node kind, the enter/exit edge, and the rule callback that
may report Violations. -/
structure Listener where
  kind : String
  onExit : Bool
  callback : NodeV → List Violation

mutual

/-- Modelled from the spec: the Traversal Engine's single depth-first walk
(§4.3): at each node fire the matching enter listeners in registration
order, recurse into the children, then fire the matching exit listeners. -/
def traverseNode (ls : List Listener) : NodeV → List Violation
  | NodeV.mk k s e cs =>
    ((ls.filter fun l => l.kind == k && !l.onExit).map
        fun l => l.callback (NodeV.mk k s e cs)).flatten
      ++ traverseList ls cs
      ++ ((ls.filter fun l => l.kind == k && l.onExit).map
        fun l => l.callback (NodeV.mk k s e cs)).flatten

/-- Depth-first walk of a sibling list, left to right (§4.3). -/
def traverseList (ls : List Listener) : List NodeV → List Violation
  | [] => []
  | n :: rest => traverseNode ls n ++ traverseList ls rest

end

/-- Modelled from the spec: a Rule as a named unit instantiated once per
file-run, producing its listeners from the run's RuleContext (here: the
current SourceText) (§3, §4.2). -/
structure Rule where
  ruleId : String
  create : List Char → List Listener

/-- Modelled from the spec: the Rule Registry instantiates every active
rule in configuration order and concatenates their listeners (§4.2). -/
def registryListeners (rules : List Rule) (src : List Char) : List Listener :=
  (rules.map fun r => r.create src).flatten

/-- One parse + traversal, as the Pass Controller consumes it. -/
def analyzeWith (rules : List Rule) (parse : List Char → Except String NodeV)
    (text : List Char) : Except String (List Violation) :=
  (parse text).map fun t => traverseNode (registryListeners rules text) t

/-- The single-quote character, `'`. -/
def singleQuote : Char := Char.ofNat 39

/-- The double-quote character, `"`. -/
def doubleQuote : Char := Char.ofNat 34

/-- Ranges `[start, stop)` of single-quoted string literals in a character
stream: a simple scanner tracking the position and, when inside a literal,
its opening offset. -/
def strLitRanges : List Char → Nat → Option Nat → List (Nat × Nat)
  | [], _, _ => []
  | c :: rest, pos, none =>
    if c = singleQuote then strLitRanges rest (pos + 1) (some pos)
    else strLitRanges rest (pos + 1) none
  | c :: rest, pos, some s =>
    if c = singleQuote then (s, pos + 1) :: strLitRanges rest (pos + 1) none
    else strLitRanges rest (pos + 1) (some s)

/-- A miniature parser for the double-quote scenario: a Program node whose
children are the Literal nodes of the single-quoted strings. -/
def parseMini (text : List Char) : NodeV :=
  ⟨"Program", 0, text.length,
    (strLitRanges text 0 none).map fun r => ⟨"Literal", r.1, r.2, []⟩⟩

/-- A rule requiring double-quoted strings, with autofix: on each Literal
node that starts with a single quote it reports one Violation whose fix
rewrites the literal with double quotes. -/
def quotesListener (src : List Char) : Listener :=
  ⟨"Literal", false, fun n =>
    if (src.drop n.nstart).head? = some singleQuote then
      [⟨"quotes", Severity.error, "Strings must use doublequote.", n.nstart, n.nstop,
        some ⟨n.nstart, n.nstop,
          doubleQuote :: ((src.drop (n.nstart + 1)).take (n.nstop - n.nstart - 2)
            ++ [doubleQuote])⟩⟩]
    else []⟩

/-- The double-quote rule packaged for the registry. -/
def quotesRule : Rule :=
  ⟨"quotes", fun src => [quotesListener src]⟩

/-- The analyzer for the double-quote scenario: the miniature parser plus
the quotes rule. -/
def quotesAnalyze : List Char → Except String (List Violation) :=
  analyzeWith [quotesRule] fun t => Except.ok (parseMini t)

/-- A lexer token of the `multiline-ternary` rule's source: its line span
(`loc`) and byte range. -/
structure Token where
  lineStart : Nat
  lineEnd : Nat
  rstart : Nat
  rstop : Nat
deriving DecidableEq, Repr

/-- `astUtils.isTokenOnSameLine`: the first token ends on the line the
second one starts on. -/
def isTokenOnSameLine (a b : Token) : Bool :=
  a.lineEnd == b.lineStart

/-- The token and comment context of one ConditionalExpression node, as the
`multiline-ternary` rule (src/lib/rules/multiline-ternary.js) reads it
through `sourceCode`. -/
structure CondExprInfo where
  firstTokenOfTest : Token
  lastTokenOfTest : Token
  questionToken : Token
  firstTokenOfConsequent : Token
  lastTokenOfConsequent : Token
  colonToken : Token
  firstTokenOfAlternate : Token
  nodeLineStart : Nat
  nodeLineEnd : Nat
  hasComments : Bool
deriving DecidableEq, Repr

/-- One `context.report` call of the `multiline-ternary` rule: the message
id and the value its `fix` function returns (`none` models `null`, a list
models the fixer array or single fixer). -/
structure MTReport where
  messageId : String
  fix : Option (List Edit)
deriving DecidableEq, Repr

/-- `fixer.removeRange([s, e])`. -/
def removeRange (s e : Nat) : Edit := ⟨s, e, []⟩

/-- `fixer.replaceTextRange([s, e], text)`. -/
def replaceTextRange (s e : Nat) (t : List Char) : Edit := ⟨s, e, t⟩

/-- The newline character. -/
def newlineChar : Char := Char.ofNat 10

/-- The ConditionalExpression handler of `multiline-ternary`
(src/lib/rules/multiline-ternary.js, `create`): `multiline` is
`option !== "never"`, `allowSingleLine` is `option === "always-multiline"`;
each reported fix first checks `hasComments` and returns `null` when the
node contains any comment. -/
def multilineTernaryCheck (opt : Option String) (i : CondExprInfo) : List MTReport :=
  let multiline := !(opt == some "never")
  let allowSingleLine := opt == some "always-multiline"
  let areTestAndConsequentOnSameLine :=
    isTokenOnSameLine i.lastTokenOfTest i.firstTokenOfConsequent
  let areConsequentAndAlternateOnSameLine :=
    isTokenOnSameLine i.lastTokenOfConsequent i.firstTokenOfAlternate
  if !multiline then
    (if !areTestAndConsequentOnSameLine then
      [⟨"unexpectedTestCons",
        if i.hasComments then none
        else some (
          (if !(isTokenOnSameLine i.lastTokenOfTest i.questionToken) then
            [removeRange i.lastTokenOfTest.rstop i.questionToken.rstart]
          else []) ++
          (if !(isTokenOnSameLine i.questionToken i.firstTokenOfConsequent) then
            [removeRange i.questionToken.rstop i.firstTokenOfConsequent.rstart]
          else []))⟩]
    else []) ++
    (if !areConsequentAndAlternateOnSameLine then
      [⟨"unexpectedConsAlt",
        if i.hasComments then none
        else some (
          (if !(isTokenOnSameLine i.lastTokenOfConsequent i.colonToken) then
            [removeRange i.lastTokenOfConsequent.rstop i.colonToken.rstart]
          else []) ++
          (if !(isTokenOnSameLine i.colonToken i.firstTokenOfAlternate) then
            [removeRange i.colonToken.rstop i.firstTokenOfAlternate.rstart]
          else []))⟩]
    else [])
  else
    if allowSingleLine && (i.nodeLineStart == i.nodeLineEnd) then []
    else
      (if areTestAndConsequentOnSameLine then
        [⟨"expectedTestCons",
          if i.hasComments then none
          else some [replaceTextRange i.lastTokenOfTest.rstop
            i.questionToken.rstart [newlineChar]]⟩]
      else []) ++
      (if areConsequentAndAlternateOnSameLine then
        [⟨"expectedConsAlt",
          if i.hasComments then none
          else some [replaceTextRange i.lastTokenOfConsequent.rstop
            i.colonToken.rstart [newlineChar]]⟩]
      else [])

/-- The number of a file's reported Violations carrying a given rule id. -/
def countForRule (msgs : List Violation) (rid : String) : Nat :=
  (msgs.filter fun m => m.ruleId == rid).length

/-- Modelled from the spec and the suppression integration tests (the
suppressions service itself is not in the repository snapshot): a rule's
Violations are hidden only when the live count is at most the stored
count; when the live count exceeds it, all of that rule's Violations are
displayed (test: "displays all the violations, when there is at least one
left unmatched"). -/
def surfacedViolations (msgs : List Violation) (supp : List (String × Nat)) : List Violation :=
  msgs.filter fun m =>
    match supp.lookup m.ruleId with
    | none => true
    | some c => decide (c < countForRule msgs m.ruleId)

/-- Modelled from the spec: stored suppressions whose count strictly
exceeds the live count are unpruned, with the excess as leftover (§6). -/
def unusedSuppressions (msgs : List Violation) (supp : List (String × Nat)) : List (String × Nat) :=
  supp.filterMap fun p =>
    if countForRule msgs p.1 < p.2 then some (p.1, p.2 - countForRule msgs p.1)
    else none

/-- Exit code of a clean run. -/
def cleanExitCode : Nat := 0

/-- Exit code when lint errors remain (test: "has exit code 1 if a linting
error occurs"). -/
def lintErrorExitCode : Nat := 1

/-- Exit code when unpruned suppressions remain (test: "exits with code 2,
when there are unused suppressions"). -/
def unprunedExitCode : Nat := 2

/-- Modelled from the spec and the suppression integration tests: unpruned
suppressions are a distinct exit condition, separate from a clean run and
from a lint-error exit. -/
def suppressionExitCode (msgs : List Violation) (supp : List (String × Nat)) : Nat :=
  if (unusedSuppressions msgs supp).isEmpty then
    if (surfacedViolations msgs supp).any (fun m => m.severity == Severity.error) then
      lintErrorExitCode
    else cleanExitCode
  else unprunedExitCode

/-- The scenario input `var foo = 'bar';` as a character list. -/
def demoInput : List Char :=
  ['v', 'a', 'r', ' ', 'f', 'o', 'o', ' ', '=', ' ',
    singleQuote, 'b', 'a', 'r', singleQuote, ';']

/-- The expected scenario output `var foo = "bar";` as a character list. -/
def demoOutput : List Char :=
  ['v', 'a', 'r', ' ', 'f', 'o', 'o', ' ', '=', ' ',
    doubleQuote, 'b', 'a', 'r', doubleQuote, ';']

/-- An analyzer that fails to parse every input. -/
def errAnalyze : List Char → Except String (List Violation) :=
  fun _ => Except.error "Parsing error: Unexpected token"

/-- An analyzer whose rule always proposes an insertion at offset 0; every
pass accepts it, so the fix loop never converges on its own. -/
def insAnalyze : List Char → Except String (List Violation) :=
  fun _ => Except.ok
    [⟨"always-insert", Severity.error, "insert a marker", 0, 0,
      some ⟨0, 0, ['x']⟩⟩]

/-- Two overlapping fix candidates for exercising the Fix Resolver. -/
def overlapDemoVs : List Violation :=
  [⟨"r1", Severity.error, "first", 0, 2, some ⟨0, 2, ['a', 'b']⟩⟩,
    ⟨"r2", Severity.error, "second", 1, 3, some ⟨1, 3, ['c', 'd']⟩⟩]

/-- Two fix candidates with identical ranges for the tie-break theorem. -/
def tieDemoVs : List Violation :=
  [⟨"r1", Severity.error, "first", 0, 2, some ⟨0, 2, ['a', 'b']⟩⟩,
    ⟨"r2", Severity.error, "second", 0, 2, some ⟨0, 2, ['c', 'd']⟩⟩]

/-- A first live `no-undef` Violation. -/
def suppDemoMsg1 : Violation :=
  ⟨"no-undef", Severity.error, "a is not defined", 0, 1, none⟩

/-- A second live `no-undef` Violation. -/
def suppDemoMsg2 : Violation :=
  ⟨"no-undef", Severity.error, "b is not defined", 2, 3, none⟩

/-- Two live `no-undef` Violations. -/
def suppDemoMsgs : List Violation := [suppDemoMsg1, suppDemoMsg2]

/-- A stored suppression of one `no-undef` occurrence. -/
def suppDemo : List (String × Nat) := [("no-undef", 1)]

/-- A ConditionalExpression spread over three lines whose node contains a
comment, for the `multiline-ternary` theorem: with option "never" both
checks report. -/
def mtDemoCond : CondExprInfo :=
  { firstTokenOfTest := ⟨1, 1, 0, 1⟩
    lastTokenOfTest := ⟨1, 1, 0, 1⟩
    questionToken := ⟨2, 2, 10, 11⟩
    firstTokenOfConsequent := ⟨2, 2, 12, 13⟩
    lastTokenOfConsequent := ⟨2, 2, 12, 13⟩
    colonToken := ⟨3, 3, 20, 21⟩
    firstTokenOfAlternate := ⟨3, 3, 22, 23⟩
    nodeLineStart := 1
    nodeLineEnd := 3
    hasComments := true }

theorem candidatesFrom_mem :
    ∀ (i : Nat) (vs : List Violation) (c : Nat × Edit),
      c ∈ candidatesFrom i vs → ∃ v ∈ vs, v.fix = some c.2 := by
  intro i vs
  induction vs generalizing i with
  | nil => intro c h; simp [candidatesFrom] at h
  | cons v rest ih =>
    intro c h
    rw [candidatesFrom] at h
    split at h
    next e heq =>
      rcases List.mem_cons.mp h with h1 | h1
      · exact ⟨v, List.mem_cons_self _ _, by rw [heq, h1]⟩
      · obtain ⟨w, hw, hfix⟩ := ih (i + 1) c h1
        exact ⟨w, List.mem_cons_of_mem _ hw, hfix⟩
    next heq =>
      obtain ⟨w, hw, hfix⟩ := ih (i + 1) c h
      exact ⟨w, List.mem_cons_of_mem _ hw, hfix⟩

theorem scanEdits_acc_mem :
    ∀ (cs : List (Nat × Edit)) (cur : Nat) (a : Nat × Edit),
      a ∈ (scanEdits cs cur).1 → a ∈ cs := by
  intro cs
  induction cs with
  | nil => intro cur a h; simp [scanEdits] at h
  | cons c rest ih =>
    intro cur a h
    rw [scanEdits] at h
    split at h
    · rcases List.mem_cons.mp h with h1 | h1
      · exact h1 ▸ List.mem_cons_self _ _
      · exact List.mem_cons_of_mem _ (ih _ a h1)
    · exact List.mem_cons_of_mem _ (ih _ a h)

theorem scanEdits_partition :
    ∀ (cs : List (Nat × Edit)) (cur : Nat) (c : Nat × Edit),
      c ∈ cs → c ∈ (scanEdits cs cur).1 ∨ c ∈ (scanEdits cs cur).2 := by
  intro cs
  induction cs with
  | nil => intro cur c h; simp at h
  | cons d rest ih =>
    intro cur c h
    rw [scanEdits]
    rcases List.mem_cons.mp h with h1 | h1
    · subst h1
      split
      · exact Or.inl (List.mem_cons_self _ _)
      · exact Or.inr (List.mem_cons_self _ _)
    · split
      · rcases ih _ c h1 with h2 | h2
        · exact Or.inl (List.mem_cons_of_mem _ h2)
        · exact Or.inr h2
      · rcases ih _ c h1 with h2 | h2
        · exact Or.inl h2
        · exact Or.inr (List.mem_cons_of_mem _ h2)

theorem scanEdits_acc_chain :
    ∀ (cs : List (Nat × Edit)) (cur : Nat),
      (∀ c ∈ cs, c.2.start ≤ c.2.stop) →
      List.Pairwise (fun a b : Nat × Edit => a.2.stop ≤ b.2.start) (scanEdits cs cur).1 ∧
        ∀ a ∈ (scanEdits cs cur).1, cur ≤ a.2.start := by
  intro cs
  induction cs with
  | nil => intro cur _; simp [scanEdits]
  | cons c rest ih =>
    intro cur hwf
    have hwf' : ∀ d ∈ rest, d.2.start ≤ d.2.stop :=
      fun d hd => hwf d (List.mem_cons_of_mem _ hd)
    rw [scanEdits]
    split
    next hacc =>
      obtain ⟨hpair, hlo⟩ := ih c.2.stop hwf'
      refine ⟨List.Pairwise.cons (fun b hb => ?_) hpair, ?_⟩
      · exact hlo b hb
      · intro a ha
        rcases List.mem_cons.mp ha with h1 | h1
        · exact h1 ▸ hacc
        · have h2 := hlo a h1
          have h3 := hwf c (List.mem_cons_self _ _)
          omega
    next hrej =>
      exact ih cur hwf'

theorem scanEdits_rej_overlap :
    ∀ (cs : List (Nat × Edit)) (prev : Nat × Edit),
      (∀ c ∈ cs, c.2.start ≤ c.2.stop) →
      List.Pairwise editLe cs →
      (∀ c ∈ cs, editLe prev c) →
      ∀ r ∈ (scanEdits cs prev.2.stop).2,
        ∃ a, (a = prev ∨ a ∈ (scanEdits cs prev.2.stop).1) ∧
          rangesOverlap a.2 r.2 ∧ editLe a r := by
  intro cs
  induction cs with
  | nil => intro prev _ _ _ r h; simp [scanEdits] at h
  | cons c rest ih =>
    intro prev hwf hsort hple r hr
    have hwf' : ∀ d ∈ rest, d.2.start ≤ d.2.stop :=
      fun d hd => hwf d (List.mem_cons_of_mem _ hd)
    have hsort' : List.Pairwise editLe rest := hsort.tail
    rw [scanEdits] at hr ⊢
    split at hr
    next hacc =>
      rw [if_pos hacc]
      have hple' : ∀ d ∈ rest, editLe c d :=
        fun d hd => (List.pairwise_cons.mp hsort).1 d hd
      obtain ⟨a, ha1, ha2, ha3⟩ := ih c hwf' hsort' hple' r hr
      refine ⟨a, ?_, ha2, ha3⟩
      rcases ha1 with h1 | h1
      · exact Or.inr (h1 ▸ List.mem_cons_self _ _)
      · exact Or.inr (List.mem_cons_of_mem _ h1)
    next hrej =>
      rw [if_neg hrej]
      rcases List.mem_cons.mp hr with h1 | h1
      · subst h1
        refine ⟨prev, Or.inl rfl, ?_, hple r (List.mem_cons_self _ _)⟩
        have h2 := hple r (List.mem_cons_self _ _)
        have h3 := hwf r (List.mem_cons_self _ _)
        unfold editLe at h2
        unfold rangesOverlap
        omega
      · obtain ⟨a, ha1, ha2, ha3⟩ :=
          ih prev hwf' hsort' (fun d hd => hple d (List.mem_cons_of_mem _ hd)) r h1
        exact ⟨a, ha1, ha2, ha3⟩

theorem pairwise_rel_of_mem {α : Type} {R : α → α → Prop} :
    ∀ {l : List α}, l.Pairwise R → ∀ {a b : α}, a ∈ l → b ∈ l → a ≠ b → R a b ∨ R b a := by
  intro l hp
  induction hp with
  | nil => intro a b ha _ _; simp at ha
  | cons hhead _ ih =>
    intro a b ha hb hne
    rcases List.mem_cons.mp ha with h1 | h1
    · rcases List.mem_cons.mp hb with h2 | h2
      · exact absurd (h1.trans h2.symm) hne
      · exact Or.inl (h1 ▸ hhead b h2)
    · rcases List.mem_cons.mp hb with h2 | h2
      · exact Or.inr (h2 ▸ hhead a h1)
      · exact ih h1 h2 hne

/-- C1: in every Fix Resolver pass, any two accepted edits have
non-intersecting ranges, and every rejected edit's range intersects an
edit accepted earlier in that pass's sorted candidate order (`editLe a r`
places the accepted witness at or before the rejected candidate in the
sort order). -/
theorem fixResolver_overlap_safety (text : List Char) (vs : List Violation)
    (hwf : vs.all wfFix = true) :
    List.Pairwise (fun a b : Nat × Edit => ¬ rangesOverlap a.2 b.2)
      (resolveFixes text vs).accepted ∧
    ∀ r ∈ (resolveFixes text vs).rejected,
      ∃ a ∈ (resolveFixes text vs).accepted, rangesOverlap a.2 r.2 ∧ editLe a r := by
  have hwf' : ∀ c ∈ sortCandidates (candidates vs), c.2.start ≤ c.2.stop := by
    intro c hc
    have hc' : c ∈ candidates vs := by
      have := List.perm_insertionSort editLe (candidates vs)
      exact this.mem_iff.mp hc
    obtain ⟨v, hv, hfix⟩ := candidatesFrom_mem 0 vs c hc'
    have hall := List.all_eq_true.mp hwf v hv
    unfold wfFix at hall
    rw [hfix] at hall
    exact of_decide_eq_true hall
  constructor
  · have h := (scanEdits_acc_chain (sortCandidates (candidates vs)) 0 hwf').1
    refine List.Pairwise.imp ?_ h
    intro a b hab hov
    exact absurd hov.2 (Nat.not_lt.mpr hab)
  · intro r hr
    have hsort : List.Pairwise editLe (sortCandidates (candidates vs)) :=
      List.sorted_insertionSort editLe (candidates vs)
    have hple : ∀ c ∈ sortCandidates (candidates vs), editLe ((0, ⟨0, 0, []⟩) : Nat × Edit) c := by
      intro c _
      unfold editLe
      dsimp only
      omega
    obtain ⟨a, ha1, ha2, ha3⟩ :=
      scanEdits_rej_overlap (sortCandidates (candidates vs)) (0, ⟨0, 0, []⟩)
        hwf' hsort hple r hr
    rcases ha1 with h1 | h1
    · exfalso
      rw [h1] at ha2
      exact absurd ha2.2 (by dsimp only; omega)
    · exact ⟨a, h1, ha2, ha3⟩

/-- C1 witness: two overlapping candidate edits; the first is accepted, the
second rejected, and the rejected range intersects the accepted edit. -/
theorem fixResolver_overlap_safety_witness :
    overlapDemoVs.all wfFix = true ∧
    List.Pairwise (fun a b : Nat × Edit => ¬ rangesOverlap a.2 b.2)
      (resolveFixes demoInput overlapDemoVs).accepted ∧
    ∃ a ∈ (resolveFixes demoInput overlapDemoVs).accepted,
      rangesOverlap a.2 (⟨1, 3, ['c', 'd']⟩ : Edit) ∧ editLe a (1, ⟨1, 3, ['c', 'd']⟩) :=
  ⟨by decide,
    (fixResolver_overlap_safety demoInput overlapDemoVs (by decide)).1,
    (fixResolver_overlap_safety demoInput overlapDemoVs (by decide)).2
      (1, ⟨1, 3, ['c', 'd']⟩) (by decide)⟩

/-- C4: the Fix Resolver's candidate order is the stable sort by range
start, then range end, then original report order (`sortCandidates` is a
permutation of the candidates sorted by `editLe`); in particular, of two
candidates with identical ranges only the earlier-reported one can be
accepted: if the later one is accepted so is the earlier, and for a
non-empty range the later one is never accepted. -/
theorem fixResolver_candidate_order (text : List Char) (vs : List Violation)
    (hwf : vs.all wfFix = true) :
    List.Perm (sortCandidates (candidates vs)) (candidates vs) ∧
    List.Pairwise editLe (sortCandidates (candidates vs)) ∧
    ∀ i j : Nat, ∀ e e2 : Edit,
      (i, e) ∈ candidates vs → (j, e2) ∈ candidates vs → i < j →
      e.start = e2.start → e.stop = e2.stop →
      ((j, e2) ∈ (resolveFixes text vs).accepted →
        (i, e) ∈ (resolveFixes text vs).accepted) ∧
      (e.start < e.stop → (j, e2) ∉ (resolveFixes text vs).accepted) := by
  have hwf' : ∀ c ∈ sortCandidates (candidates vs), c.2.start ≤ c.2.stop := by
    intro c hc
    have hc' : c ∈ candidates vs :=
      (List.perm_insertionSort editLe (candidates vs)).mem_iff.mp hc
    obtain ⟨v, hv, hfix⟩ := candidatesFrom_mem 0 vs c hc'
    have hall := List.all_eq_true.mp hwf v hv
    unfold wfFix at hall
    rw [hfix] at hall
    exact of_decide_eq_true hall
  have hsort : List.Pairwise editLe (sortCandidates (candidates vs)) :=
    List.sorted_insertionSort editLe (candidates vs)
  have hperm : List.Perm (sortCandidates (candidates vs)) (candidates vs) :=
    List.perm_insertionSort editLe (candidates vs)
  refine ⟨hperm, hsort, ?_⟩
  intro i j e e2 hi hj hij hs1 hs2
  have hchain := (scanEdits_acc_chain (sortCandidates (candidates vs)) 0 hwf').1
  have hforward : (j, e2) ∈ (resolveFixes text vs).accepted →
      (i, e) ∈ (resolveFixes text vs).accepted := by
    intro hjacc
    by_contra hiacc
    have hisorted : (i, e) ∈ sortCandidates (candidates vs) := hperm.mem_iff.mpr hi
    have hirej : (i, e) ∈ (resolveFixes text vs).rejected := by
      rcases scanEdits_partition (sortCandidates (candidates vs)) 0 (i, e) hisorted
        with h1 | h1
      · exact absurd h1 hiacc
      · exact h1
    have hple : ∀ c ∈ sortCandidates (candidates vs),
        editLe ((0, ⟨0, 0, []⟩) : Nat × Edit) c := by
      intro c _
      unfold editLe
      dsimp only
      omega
    obtain ⟨a, ha1, ha2, ha3⟩ :=
      scanEdits_rej_overlap (sortCandidates (candidates vs)) (0, ⟨0, 0, []⟩)
        hwf' hsort hple (i, e) hirej
    rcases ha1 with h1 | h1
    · rw [h1] at ha2
      exact absurd ha2.2 (by dsimp only; omega)
    · have hane : a ≠ (j, e2) := by
        intro heq
        rw [heq] at ha3
        unfold editLe at ha3
        simp only at ha3
        omega
      have := pairwise_rel_of_mem hchain h1 hjacc hane
      unfold rangesOverlap at ha2
      simp only at ha2 this
      omega
  refine ⟨hforward, ?_⟩
  intro hne hjacc
  have hiacc := hforward hjacc
  have hne2 : ((i, e) : Nat × Edit) ≠ (j, e2) := by
    intro heq
    exact absurd (congrArg Prod.fst heq) (by simp; omega)
  have := pairwise_rel_of_mem hchain hiacc hjacc hne2
  simp only at this
  omega

/-- C4 witness: two candidates with the identical non-empty range `[0, 2)`;
the later-reported one is not accepted, and acceptance of the later one
would imply acceptance of the earlier one. -/
theorem fixResolver_candidate_order_witness :
    tieDemoVs.all wfFix = true ∧
    ((1, (⟨0, 2, ['c', 'd']⟩ : Edit)) ∈ (resolveFixes [] tieDemoVs).accepted →
      (0, (⟨0, 2, ['a', 'b']⟩ : Edit)) ∈ (resolveFixes [] tieDemoVs).accepted) ∧
    ((0 : Nat) < 2 →
      (1, (⟨0, 2, ['c', 'd']⟩ : Edit)) ∉ (resolveFixes [] tieDemoVs).accepted) :=
  ⟨by decide,
    (fixResolver_candidate_order [] tieDemoVs (by decide)).2.2 0 1
      ⟨0, 2, ['a', 'b']⟩ ⟨0, 2, ['c', 'd']⟩
      (by decide) (by decide) (by decide) rfl rfl⟩

theorem lintLoop_passCount_le (analyze : List Char → Except String (List Violation))
    (f : Bool) :
    ∀ (fuel : Nat) (t : List Char) (p e : Nat),
      (lintLoop analyze f fuel t p e).passCount ≤ p + fuel + 1 := by
  intro fuel
  induction fuel with
  | zero =>
    intro t p e
    rw [lintLoop]
    cases analyze t with
    | error msg => simp
    | ok vs =>
      dsimp only
      split
      · split
        · simp
        · simp
      · simp
  | succ fuel ih =>
    intro t p e
    rw [lintLoop]
    cases analyze t with
    | error msg => simp; omega
    | ok vs =>
      dsimp only
      split
      · split
        · simp
        · have := ih (resolveFixes t vs).output (p + 1)
            (e + (resolveFixes t vs).accepted.length)
          omega
      · simp

/-- C2 (amended): the Pass Controller performs at most `maxPasses`
parse/traversal cycles whenever `maxPasses ≥ 1` (in particular with the
default ceiling of 10 when `maxPasses` is unspecified); in general it
performs at most `max maxPasses 1` cycles, because the first
`Idle → Analyzing` cycle is unconditional. -/
theorem passController_convergence_bound
    (analyze : List Char → Except String (List Violation))
    (text : List Char) (o : LintOptions) :
    (1 ≤ ceilingOf o → (lint analyze text o).passCount ≤ ceilingOf o) ∧
    (lint analyze text o).passCount ≤ max (ceilingOf o) 1 ∧
    ceilingOf ⟨o.fix, none⟩ = 10 := by
  have h := lintLoop_passCount_le analyze o.fix (ceilingOf o - 1) text 0 0
  unfold lint
  refine ⟨fun h1 => by omega, by omega, rfl⟩

/-- C2 counterexample: with `maxPasses = 0` the Pass Controller still runs
its unconditional first parse/traversal cycle, so the pass count exceeds
the requested ceiling. -/
theorem passCeiling_counterexample :
    ¬ ((lint insAnalyze [] ⟨true, some 0⟩).passCount ≤
      ceilingOf ⟨true, some 0⟩) := by
  decide

/-- C2 witness: with a positive ceiling the pass count stays within it. -/
theorem passController_convergence_bound_witness :
    1 ≤ ceilingOf ⟨true, some 3⟩ ∧
    (lint insAnalyze [] ⟨true, some 3⟩).passCount ≤ ceilingOf ⟨true, some 3⟩ :=
  ⟨by decide,
    (passController_convergence_bound insAnalyze [] ⟨true, some 3⟩).1 (by decide)⟩

/-- C3: `lint` and the Traversal Engine are pure functions of their inputs:
for equal input text, rule set (analyzer/listeners), and options, two
invocations produce identical Reports, and two traversals of the same
tree with the same listeners produce identical Violation lists in
identical order. -/
theorem lint_deterministic
    (a₁ a₂ : List Char → Except String (List Violation))
    (t₁ t₂ : List Char) (o₁ o₂ : LintOptions)
    (ls₁ ls₂ : List Listener) (n₁ n₂ : NodeV)
    (ha : a₁ = a₂) (ht : t₁ = t₂) (ho : o₁ = o₂) (hl : ls₁ = ls₂) (hn : n₁ = n₂) :
    lint a₁ t₁ o₁ = lint a₂ t₂ o₂ ∧ traverseNode ls₁ n₁ = traverseNode ls₂ n₂ := by
  subst ha ht ho hl hn
  exact ⟨rfl, rfl⟩

/-- C3 witness: repeated invocation on the double-quote scenario. -/
theorem lint_deterministic_witness :
    lint quotesAnalyze demoInput ⟨true, none⟩ = lint quotesAnalyze demoInput ⟨true, none⟩ ∧
    traverseNode [quotesListener demoInput] (parseMini demoInput)
      = traverseNode [quotesListener demoInput] (parseMini demoInput) :=
  lint_deterministic quotesAnalyze quotesAnalyze demoInput demoInput
    ⟨true, none⟩ ⟨true, none⟩ [quotesListener demoInput] [quotesListener demoInput]
    (parseMini demoInput) (parseMini demoInput) rfl rfl rfl rfl rfl

/-- C5: on parse failure `lint` reports exactly one fatal syntax-error
Violation, counts zero passes, applies zero fixes, leaves the text
unchanged, and every other file of a batch gets exactly the Report of its
own standalone `lint` run. -/
theorem parse_failure_single_fatal
    (analyze : List Char → Except String (List Violation))
    (text : List Char) (o : LintOptions) (msg : String)
    (h : analyze text = Except.error msg) :
    (lint analyze text o).violations = [parseErrorViolation msg] ∧
    (parseErrorViolation msg).severity = Severity.fatal ∧
    (lint analyze text o).passCount = 0 ∧
    (lint analyze text o).fixesApplied = 0 ∧
    (lint analyze text o).finalText = text ∧
    ∀ (files : List (List Char)) (i : Nat),
      (lintBatch analyze o files)[i]? = (files[i]?).map fun f => lint analyze f o := by
  have hrep : lint analyze text o =
      ⟨text, [parseErrorViolation msg], 0, 0, false, true⟩ := by
    unfold lint
    rw [lintLoop, h]
  refine ⟨by rw [hrep], rfl, by rw [hrep], by rw [hrep], by rw [hrep], ?_⟩
  intro files i
  simp [lintBatch]

/-- C5 witness: a failing parser on the scenario input. -/
theorem parse_failure_single_fatal_witness :
    errAnalyze demoInput = Except.error "Parsing error: Unexpected token" ∧
    (lint errAnalyze demoInput ⟨true, none⟩).violations
      = [parseErrorViolation "Parsing error: Unexpected token"] ∧
    (lint errAnalyze demoInput ⟨true, none⟩).passCount = 0 :=
  ⟨rfl,
    (parse_failure_single_fatal errAnalyze demoInput ⟨true, none⟩
      "Parsing error: Unexpected token" rfl).1,
    (parse_failure_single_fatal errAnalyze demoInput ⟨true, none⟩
      "Parsing error: Unexpected token" rfl).2.2.1⟩

/-- C6: on input `var foo = 'bar';` with the double-quote rule and
`fix : true`, `lint` outputs `var foo = "bar";`, leaves zero Violations,
and applies exactly one edit. -/
theorem quotes_scenario_fix :
    (lint quotesAnalyze demoInput ⟨true, none⟩).finalText = demoOutput ∧
    (lint quotesAnalyze demoInput ⟨true, none⟩).violations = [] ∧
    (lint quotesAnalyze demoInput ⟨true, none⟩).fixesApplied = 1 := by
  decide

theorem lintLoop_converged_stable
    (analyze : List Char → Except String (List Violation)) (f : Bool) :
    ∀ (fuel : Nat) (t : List Char) (p e g p2 e2 : Nat),
      (lintLoop analyze f fuel t p e).nonConvergent = false →
      (lintLoop analyze f g (lintLoop analyze f fuel t p e).finalText p2 e2).violations
          = (lintLoop analyze f fuel t p e).violations ∧
      (lintLoop analyze f g (lintLoop analyze f fuel t p e).finalText p2 e2).fixesApplied
          = e2 := by
  intro fuel
  induction fuel with
  | zero =>
    intro t p e g p2 e2 hcv
    cases ha : analyze t with
    | error msg =>
      have hres : lintLoop analyze f 0 t p e
          = ⟨t, [parseErrorViolation msg], e, p, false, true⟩ := by
        rw [lintLoop, ha]
      rw [hres]
      dsimp only
      rw [lintLoop, ha]
      exact ⟨rfl, rfl⟩
    | ok vs =>
      by_cases hf : f = true
      · by_cases hacc : (resolveFixes t vs).accepted.length = 0
        · have hres : lintLoop analyze f 0 t p e = ⟨t, vs, e, p + 1, false, false⟩ := by
            rw [lintLoop, ha]
            dsimp only
            rw [if_pos hf, if_pos hacc]
          rw [hres]
          dsimp only
          rw [lintLoop, ha]
          dsimp only
          rw [if_pos hf, if_pos hacc]
          exact ⟨rfl, rfl⟩
        · exfalso
          have hres : lintLoop analyze f 0 t p e
              = ⟨(resolveFixes t vs).output, vs,
                  e + (resolveFixes t vs).accepted.length, p + 1, true, false⟩ := by
            rw [lintLoop, ha]
            dsimp only
            rw [if_pos hf, if_neg hacc]
          rw [hres] at hcv
          simp at hcv
      · have hres : lintLoop analyze f 0 t p e = ⟨t, vs, e, p + 1, false, false⟩ := by
          rw [lintLoop, ha]
          dsimp only
          rw [if_neg hf]
        rw [hres]
        dsimp only
        rw [lintLoop, ha]
        dsimp only
        rw [if_neg hf]
        exact ⟨rfl, rfl⟩
  | succ fuel ih =>
    intro t p e g p2 e2 hcv
    cases ha : analyze t with
    | error msg =>
      have hres : lintLoop analyze f (fuel + 1) t p e
          = ⟨t, [parseErrorViolation msg], e, p, false, true⟩ := by
        rw [lintLoop, ha]
      rw [hres]
      dsimp only
      rw [lintLoop, ha]
      exact ⟨rfl, rfl⟩
    | ok vs =>
      by_cases hf : f = true
      · by_cases hacc : (resolveFixes t vs).accepted.length = 0
        · have hres : lintLoop analyze f (fuel + 1) t p e
              = ⟨t, vs, e, p + 1, false, false⟩ := by
            rw [lintLoop, ha]
            dsimp only
            rw [if_pos hf, if_pos hacc]
          rw [hres]
          dsimp only
          rw [lintLoop, ha]
          dsimp only
          rw [if_pos hf, if_pos hacc]
          exact ⟨rfl, rfl⟩
        · have hres : lintLoop analyze f (fuel + 1) t p e
              = lintLoop analyze f fuel (resolveFixes t vs).output (p + 1)
                  (e + (resolveFixes t vs).accepted.length) := by
            rw [lintLoop, ha]
            dsimp only
            rw [if_pos hf, if_neg hacc]
          rw [hres] at hcv ⊢
          exact ih (resolveFixes t vs).output (p + 1)
            (e + (resolveFixes t vs).accepted.length) g p2 e2 hcv
      · have hres : lintLoop analyze f (fuel + 1) t p e
            = ⟨t, vs, e, p + 1, false, false⟩ := by
          rw [lintLoop, ha]
          dsimp only
          rw [if_neg hf]
        rw [hres]
        dsimp only
        rw [lintLoop, ha]
        dsimp only
        rw [if_neg hf]
        exact ⟨rfl, rfl⟩

/-- C7 (amended): when a `lint` run with `fix : true` converges (it did not
stop at the pass ceiling with edits still being accepted), re-running
`lint` with the same rules and options on its final SourceText applies
zero additional edits and yields the same Violations as the first run's
final Report. -/
theorem lint_fix_idempotent
    (analyze : List Char → Except String (List Violation))
    (text : List Char) (o : LintOptions)
    (_hfix : o.fix = true)
    (hconv : (lint analyze text o).nonConvergent = false) :
    (lint analyze (lint analyze text o).finalText o).fixesApplied = 0 ∧
    (lint analyze (lint analyze text o).finalText o).violations
      = (lint analyze text o).violations := by
  have h := lintLoop_converged_stable analyze o.fix (ceilingOf o - 1) text 0 0
    (ceilingOf o - 1) 0 0 hconv
  exact ⟨h.2, h.1⟩

/-- C7 counterexample: a rule whose fix is accepted in every pass with a
ceiling of 1: the non-convergent first run leaves text on which a second
run applies further edits. -/
theorem fix_idempotence_counterexample :
    (lint insAnalyze (lint insAnalyze [] ⟨true, some 1⟩).finalText
      ⟨true, some 1⟩).fixesApplied ≠ 0 := by
  decide

/-- C7 witness: the convergent double-quote scenario run; the re-run
applies zero edits and reproduces the (empty) final Violations. -/
theorem lint_fix_idempotent_witness :
    (⟨true, none⟩ : LintOptions).fix = true ∧
    (lint quotesAnalyze demoInput ⟨true, none⟩).nonConvergent = false ∧
    (lint quotesAnalyze (lint quotesAnalyze demoInput ⟨true, none⟩).finalText
      ⟨true, none⟩).fixesApplied = 0 ∧
    (lint quotesAnalyze (lint quotesAnalyze demoInput ⟨true, none⟩).finalText
      ⟨true, none⟩).violations = (lint quotesAnalyze demoInput ⟨true, none⟩).violations :=
  ⟨rfl, by decide,
    (lint_fix_idempotent quotesAnalyze demoInput ⟨true, none⟩ rfl (by decide)).1,
    (lint_fix_idempotent quotesAnalyze demoInput ⟨true, none⟩ rfl (by decide)).2⟩

theorem lookup_mem {supp : List (String × Nat)} {rid : String} {c : Nat}
    (h : supp.lookup rid = some c) : (rid, c) ∈ supp := by
  induction supp with
  | nil => simp [List.lookup] at h
  | cons kv rest ih =>
    obtain ⟨k, v⟩ := kv
    rw [List.lookup] at h
    cases hbe : rid == k with
    | true =>
      rw [hbe] at h
      have hk : rid = k := eq_of_beq hbe
      have hv : v = c := by
        simpa using h
      subst hk hv
      exact List.mem_cons_self _ _
    | false =>
      rw [hbe] at h
      exact List.mem_cons_of_mem _ (ih h)

/-- C8 counterexample: with two live `no-undef` Violations and a stored
suppression count of 1, reconciliation surfaces both Violations (the test
"displays all the violations, when there is at least one left unmatched"),
not just the single one in excess of the stored count. -/
theorem suppression_partial_hide_counterexample :
    surfacedViolations suppDemoMsgs suppDemo = suppDemoMsgs ∧
    surfacedViolations suppDemoMsgs suppDemo ≠ [suppDemoMsg2] := by
  decide

/-- C8 (amended): suppression reconciliation is all-or-nothing per
(file, rule): when the live count is at most the stored count, every one of
that rule's Violations is hidden; when the live count exceeds the stored
count, none is hidden — every one of that rule's Violations is surfaced. -/
theorem suppression_all_or_nothing (msgs : List Violation)
    (supp : List (String × Nat)) (rid : String) (c : Nat)
    (hlook : supp.lookup rid = some c) :
    (countForRule msgs rid ≤ c →
      ∀ m ∈ surfacedViolations msgs supp, m.ruleId ≠ rid) ∧
    (c < countForRule msgs rid →
      ∀ m ∈ msgs, m.ruleId = rid → m ∈ surfacedViolations msgs supp) := by
  constructor
  · intro hle m hm hrid
    have hp := (List.mem_filter.mp hm).2
    rw [hrid, hlook] at hp
    simp only [decide_eq_true_eq] at hp
    omega
  · intro hlt m hm hrid
    refine List.mem_filter.mpr ⟨hm, ?_⟩
    rw [hrid, hlook]
    simpa using hlt

/-- C8 witness: the stored count 1 is exceeded by the live count 2, so the
first live Violation is surfaced rather than hidden. -/
theorem suppression_all_or_nothing_witness :
    suppDemo.lookup "no-undef" = some 1 ∧
    1 < countForRule suppDemoMsgs "no-undef" ∧
    suppDemoMsg1 ∈ surfacedViolations suppDemoMsgs suppDemo :=
  ⟨rfl, by decide,
    (suppression_all_or_nothing suppDemoMsgs suppDemo "no-undef" 1 rfl).2
      (by decide) suppDemoMsg1 (by decide) rfl⟩

/-- C9: a stored suppression whose count strictly exceeds the live count is
reported as unpruned with exactly the excess, and the run surfaces the
distinct unpruned exit condition, separate from both the clean exit and
the lint-error exit. -/
theorem unpruned_suppressions_exit (msgs : List Violation)
    (supp : List (String × Nat)) (rid : String) (c : Nat)
    (hlook : supp.lookup rid = some c)
    (hlt : countForRule msgs rid < c) :
    (rid, c - countForRule msgs rid) ∈ unusedSuppressions msgs supp ∧
    suppressionExitCode msgs supp = unprunedExitCode ∧
    unprunedExitCode ≠ cleanExitCode ∧
    unprunedExitCode ≠ lintErrorExitCode := by
  have hmem : (rid, c - countForRule msgs rid) ∈ unusedSuppressions msgs supp := by
    refine List.mem_filterMap.mpr ⟨(rid, c), lookup_mem hlook, ?_⟩
    simp [hlt]
  have hne : ¬ ((unusedSuppressions msgs supp).isEmpty = true) := by
    intro hemp
    rw [List.isEmpty_iff] at hemp
    rw [hemp] at hmem
    exact absurd hmem (List.not_mem_nil _)
  refine ⟨hmem, ?_, by decide, by decide⟩
  unfold suppressionExitCode
  rw [if_neg hne]

/-- C9 witness: a stored `indent` suppression of 10 against zero live
`indent` Violations is unpruned with excess 10 and exits with the
unpruned code. -/
theorem unpruned_suppressions_exit_witness :
    ([("indent", 10)] : List (String × Nat)).lookup "indent" = some 10 ∧
    countForRule [suppDemoMsg1] "indent" < 10 ∧
    ("indent", 10 - countForRule [suppDemoMsg1] "indent")
      ∈ unusedSuppressions [suppDemoMsg1] [("indent", 10)] ∧
    suppressionExitCode [suppDemoMsg1] [("indent", 10)] = unprunedExitCode :=
  ⟨rfl, by decide,
    (unpruned_suppressions_exit [suppDemoMsg1] [("indent", 10)] "indent" 10
      rfl (by decide)).1,
    (unpruned_suppressions_exit [suppDemoMsg1] [("indent", 10)] "indent" 10
      rfl (by decide)).2.1⟩

/-- C10: for a ConditionalExpression node containing at least one comment,
every report of the `multiline-ternary` rule carries no Edit — each `fix`
function returns `null` under the `hasComments` guard
(src/lib/rules/multiline-ternary.js). -/
theorem multiline_ternary_comments_no_fix (opt : Option String)
    (i : CondExprInfo) (hc : i.hasComments = true) :
    ∀ v ∈ multilineTernaryCheck opt i, v.fix = none := by
  intro v hv
  unfold multilineTernaryCheck at hv
  rw [hc] at hv
  simp only [if_true] at hv
  split at hv
  · rcases List.mem_append.mp hv with h1 | h1
    · split at h1
      · rw [List.mem_singleton] at h1
        rw [h1]
      · simp at h1
    · split at h1
      · rw [List.mem_singleton] at h1
        rw [h1]
      · simp at h1
  · split at hv
    · simp at hv
    · rcases List.mem_append.mp hv with h1 | h1
      · split at h1
        · rw [List.mem_singleton] at h1
          rw [h1]
        · simp at h1
      · split at h1
        · rw [List.mem_singleton] at h1
          rw [h1]
        · simp at h1

/-- C10 witness: a three-line ternary containing a comment, checked with
the "never" option: the `unexpectedTestCons` report is produced and
carries no fix. -/
theorem multiline_ternary_comments_no_fix_witness :
    mtDemoCond.hasComments = true ∧
    (⟨"unexpectedTestCons", none⟩ : MTReport)
      ∈ multilineTernaryCheck (some "never") mtDemoCond ∧
    MTReport.fix ⟨"unexpectedTestCons", none⟩ = none :=
  ⟨rfl, by decide,
    multiline_ternary_comments_no_fix (some "never") mtDemoCond rfl
      ⟨"unexpectedTestCons", none⟩ (by decide)⟩
